import Mathlib

/-!
# Contact store actor (`app/app.go`)

A shallow embedding of the single-writer contact store of `app/app.go`:
the state owned by `run` (`currentID`, `contacts`), its loop-local helpers
(`sortContacts`, `findIndexByContent`, `findIndexByID`, `ac`, `uc`), the
command loop, and the client facade (`AddContact`, `GetContacts`,
`ContactDetails`, `DeleteContact`, `UpdateContact`).

Modelling conventions.

* Go `string` is Lean `String`; Go compares strings bytewise, which on valid
  UTF-8 is the code-point order that Lean's `<` on `String` implements.
* Go `int` is `Int`.  `currentID` only ever grows by one per inserted
  contact, so it would need `2^63` insertions to wrap; the model does not
  wrap.
* A slice is a `List`.
* The `commands` channel is FIFO with a single consumer, so the store sees
  the commands in the order they were enqueued; the model executes a
  command when it is submitted.
* `slices.SortFunc` is pattern-defeating quicksort and is not stable.  The
  model takes it as a parameter (`SortFunc`) constrained by its documented
  contract: the result is a permutation of the input that is ascending for
  the comparison function.  `insertionSortCmpFunc`, the routine the library
  uses for slices of at most twelve elements, is given as an instance.
* A `sync.WaitGroup` is its counter: `Add` panics when the counter would go
  negative, and `Wait` returns exactly when the counter is zero.
-/

namespace ContactApp

/-! ## Data model (`appinterface/interface.go`) -/

/-- The `Contact` struct. -/
structure Contact where
  ID : Int
  FirstName : String
  LastName : String
  Email : String
deriving DecidableEq

/-- The zero value of `Contact`. -/
def Contact.zero : Contact := ⟨0, "", "", ""⟩

instance : Inhabited Contact := ⟨Contact.zero⟩

/-- The tags of `appCommandTag`. -/
inductive appCommandTag where
  | addContact
  | getContacts
  | contactDetails
  | deleteContact
  | updateContact
deriving DecidableEq

/-- The `appCommand` struct; the `result` channel is modelled by the reply
that `exec` returns. -/
structure appCommand where
  tag : appCommandTag
  inContact : Contact
deriving DecidableEq

/-- Values of type `any` that travel over a `result` channel. -/
inductive AnyVal where
  | nil
  | contact (c : Contact)
  | contacts (cs : List Contact)
deriving DecidableEq

/-- Errors the facade can return: `io.EOF`, and the runtime errors its deferred
`recover` turns into a result (a send on the closed `commands` channel, a failed
type assertion). -/
inductive GoError where
  | EOF
  | sendOnClosedChannel
  | interfaceConversion
deriving DecidableEq

/-! ## Library routines of package `slices` -/

/-- Decision of `<` on strings by lexicographic comparison of their character
sequences. -/
instance decLtString (a b : String) : Decidable (a < b) :=
  decidable_of_iff (a.toList < b.toList) String.lt_iff_toList_lt.symm

/-- The comparison closure passed to `slices.SortFunc` and (verbatim again)
to `slices.BinarySearchFunc` in `run`. -/
def contactCmp (a b : Contact) : Int :=
  if a.FirstName < b.FirstName then -1
  else if a.FirstName > b.FirstName then 1
  else if a.LastName < b.LastName then -1
  else if a.LastName > b.LastName then 1
  else if a.Email < b.Email then -1
  else if a.Email > b.Email then 1
  else 0

/-- The loop of `slices.BinarySearchFunc`: `for i < j { h := (i+j)/2; ... }`.
The first argument bounds the number of iterations. -/
def bsearchLoop {α τ : Type} (x : List α) (target : τ) (cmp : α → τ → Int) :
    Nat → Nat → Nat → Nat
  | 0, i, _ => i
  | fuel + 1, i, j =>
    if i < j then
      let h := (i + j) / 2
      match x[h]? with
      | some e =>
        if cmp e target < 0 then bsearchLoop x target cmp fuel (h + 1) j
        else bsearchLoop x target cmp fuel i h
      | none => i
    else i

/-- The function `slices.BinarySearchFunc`: returns `(i, i < n && cmp(x[i], target) == 0)`
for the position `i` the loop ends at.  The interval `[i, j)` at least halves
in every iteration, so `len(x)` iterations are enough. -/
def BinarySearchFunc {α τ : Type} (x : List α) (target : τ) (cmp : α → τ → Int) :
    Nat × Bool :=
  let n := x.length
  let i := bsearchLoop x target cmp n 0 n
  (i, match x[i]? with
      | some e => decide (cmp e target = 0)
      | none => false)

/-- The loop of `slices.IndexFunc`, at offset `i`. -/
def IndexFunc.go {α : Type} (f : α → Bool) : List α → Int → Int
  | [], _ => -1
  | a :: s, i => if f a then i else IndexFunc.go f s (i + 1)

/-- The function `slices.IndexFunc`: the first index whose element satisfies `f`,
or `-1`. -/
def IndexFunc {α : Type} (s : List α) (f : α → Bool) : Int :=
  IndexFunc.go f s 0

/-- The effect of `slices.Delete(s, i, j)` on the backing array of `s`, seen
through the caller's slice header (which keeps its length): the elements
from `j` on are moved down to `i`, and the vacated tail is zeroed. -/
def Delete {α : Type} [Inhabited α] (s : List α) (i j : Nat) : List α :=
  s.take i ++ s.drop j ++ List.replicate (j - i) default

/-- The inner loop of `insertionSortCmpFunc`: `e` travels towards the front
while it compares less than its predecessor.  The sorted prefix is held
reversed, last element first. -/
def insertBack {α : Type} (cmp : α → α → Int) (e : α) : List α → List α
  | [] => [e]
  | p :: rest => if cmp e p < 0 then p :: insertBack cmp e rest else e :: p :: rest

/-- The library's `insertionSortCmpFunc` over a whole slice. -/
def insertionSortCmpFunc {α : Type} (cmp : α → α → Int) (data : List α) : List α :=
  (data.foldl (fun acc e => insertBack cmp e acc) []).reverse

/-- An implementation of `slices.SortFunc(contacts, contactCmp)` together with
the contract the library documents for it. -/
structure SortFunc where
  sort : List Contact → List Contact
  perm : ∀ l, List.Perm (sort l) l
  sorted : ∀ l, List.Pairwise (fun a b => contactCmp a b ≤ 0) (sort l)

/-! ## The state owned by `run` and its helpers -/

/-- The variables `currentID` and `contacts` of `run`. -/
structure Store where
  currentID : Int
  contacts : List Contact
deriving DecidableEq

/-- The state `run` starts from: `currentID := 0`, `contacts` nil. -/
def Store.init : Store := ⟨0, []⟩

/-- The closure `sortContacts`. -/
def sortContacts (S : SortFunc) (st : Store) : Store :=
  { st with contacts := S.sort st.contacts }

/-- The closure `findIndexByContent`. -/
def findIndexByContent (st : Store) (contact : Contact) : Nat × Bool :=
  BinarySearchFunc st.contacts contact contactCmp

/-- The closure `findIndexByID`. -/
def findIndexByID (st : Store) (id : Int) : Int :=
  IndexFunc st.contacts (fun a => decide (a.ID = id))

/-- The closure `ac`. -/
def ac (S : SortFunc) (st : Store) (firstName lastName email : String) : Store :=
  let contact : Contact := ⟨0, firstName, lastName, email⟩
  let ok := (findIndexByContent st contact).2
  if !ok then
    let currentID := st.currentID + 1
    let contact := { contact with ID := currentID }
    sortContacts S ⟨currentID, st.contacts ++ [contact]⟩
  else st

/-- The closure `uc`. -/
def uc (S : SortFunc) (st : Store) (id : Int) (firstName lastName email : String) : Store :=
  let idx := findIndexByID st id
  if idx ≥ 0 then
    let contacts := List.modify
      (fun c => { c with FirstName := firstName, LastName := lastName, Email := email })
      idx.toNat st.contacts
    sortContacts S { st with contacts := contacts }
  else st

/-- One iteration of the command loop of `run`: the new state, and the value
sent on `cmd.result` before the channel is closed, if any. -/
def exec (S : SortFunc) (st : Store) (cmd : appCommand) : Store × Option AnyVal :=
  match cmd.tag with
  | .addContact =>
    (ac S st cmd.inContact.FirstName cmd.inContact.LastName cmd.inContact.Email, none)
  | .getContacts => (st, some (.contacts st.contacts))
  | .contactDetails =>
    let idx := findIndexByID st cmd.inContact.ID
    if idx ≥ 0 then (st, some (.contact (st.contacts.getD idx.toNat Contact.zero)))
    else (st, none)
  | .deleteContact =>
    let idx := findIndexByID st cmd.inContact.ID
    if idx ≥ 0 then
      let contacts := Delete st.contacts idx.toNat (idx.toNat + 1)
      ({ st with contacts := contacts.take (contacts.length - 1) }, none)
    else (st, none)
  | .updateContact =>
    (uc S st cmd.inContact.ID cmd.inContact.FirstName cmd.inContact.LastName
      cmd.inContact.Email, none)

/-- The command loop continued from `st` over the commands `cmds`. -/
def runFrom (S : SortFunc) (st : Store) (cmds : List appCommand) : Store :=
  cmds.foldl (fun s cmd => (exec S s cmd).1) st

/-- The function `run`: the command loop from the initial state. -/
def run (S : SortFunc) (cmds : List appCommand) : Store :=
  runFrom S Store.init cmds

/-! ## The client facade -/

/-- The `app` struct as its methods see it: whether `Stop` has closed
`commands`, and the state of the `run` goroutine behind the channel. -/
structure App where
  closed : Bool
  store : Store
deriving DecidableEq

/-- The constructor `NewApp`: an open channel in front of a fresh `run`. -/
def NewApp : App := ⟨false, Store.init⟩

/-- The statement `a.commands <- cmd` and the loop iteration that consumes
`cmd`.  The result `none` is the panic of a send on a closed channel;
otherwise the new state and what can be received from `cmd.result`. -/
def App.send (S : SortFunc) (a : App) (cmd : appCommand) : Option (App × Option AnyVal) :=
  if a.closed then none
  else
    let r := exec S a.store cmd
    some ({ a with store := r.1 }, r.2)

/-- The receive `<-r` on a `result` channel: the value sent, or the zero value
`nil` when the channel was closed without one. -/
def recv (r : Option AnyVal) : AnyVal :=
  match r with
  | some v => v
  | none => .nil

/-- The method `AddContact`. -/
def App.AddContact (S : SortFunc) (a : App) (firstName lastName email : String) :
    App × Option GoError :=
  match a.send S ⟨.addContact, ⟨0, firstName, lastName, email⟩⟩ with
  | none => (a, some .sendOnClosedChannel)
  | some (a1, _) => (a1, none)

/-- The method `GetContacts`. -/
def App.GetContacts (S : SortFunc) (a : App) : App × List Contact × Option GoError :=
  match a.send S ⟨.getContacts, Contact.zero⟩ with
  | none => (a, [], some .sendOnClosedChannel)
  | some (a1, r) =>
    match recv r with
    | .contacts cs => (a1, cs, none)
    | _ => (a1, [], some .interfaceConversion)

/-- The method `ContactDetails`. -/
def App.ContactDetails (S : SortFunc) (a : App) (id : Int) : App × Contact × Option GoError :=
  match a.send S ⟨.contactDetails, { Contact.zero with ID := id }⟩ with
  | none => (a, Contact.zero, some .sendOnClosedChannel)
  | some (a1, r) =>
    match recv r with
    | .contact result => (a1, result, none)
    | _ => (a1, Contact.zero, some .EOF)

/-- The method `DeleteContact`. -/
def App.DeleteContact (S : SortFunc) (a : App) (id : Int) : App × Option GoError :=
  match a.send S ⟨.deleteContact, { Contact.zero with ID := id }⟩ with
  | none => (a, some .sendOnClosedChannel)
  | some (a1, _) => (a1, none)

/-- The method `UpdateContact`. -/
def App.UpdateContact (S : SortFunc) (a : App) (id : Int) (firstName lastName email : String) :
    App × Option GoError :=
  match a.send S ⟨.updateContact, ⟨id, firstName, lastName, email⟩⟩ with
  | none => (a, some .sendOnClosedChannel)
  | some (a1, _) => (a1, none)

/-- A running actor whose loop has consumed the commands `cmds`. -/
def App.after (S : SortFunc) (cmds : List appCommand) : App :=
  ⟨false, run S cmds⟩

/-! ## Shutdown and the completion signal -/

/-- The method `Stop`: `close(a.commands)`.  The result `none` is the panic of
closing a channel that is already closed. -/
def App.Stop (a : App) : Option App :=
  if a.closed then none else some { a with closed := true }

/-- The counter of a `sync.WaitGroup`. -/
structure WaitGroup where
  counter : Int
deriving DecidableEq

/-- The library's `wg.Add(delta)`; the result `none` is the panic
"sync: negative WaitGroup counter". -/
def WaitGroup.Add (wg : WaitGroup) (delta : Int) : Option WaitGroup :=
  if wg.counter + delta < 0 then none else some ⟨wg.counter + delta⟩

/-- The library's `wg.Done()`, which is `wg.Add(-1)`. -/
def WaitGroup.Done (wg : WaitGroup) : Option WaitGroup :=
  wg.Add (-1)

/-- The library's `wg.Wait()`, which blocks until the counter is zero: `true`
when a call returns in this state, `false` when it stays blocked. -/
def WaitGroup.Wait (wg : WaitGroup) : Bool :=
  decide (wg.counter = 0)

/-- An `app` value together with its WaitGroup and its `run` goroutine:
`exited` tells whether `run` has returned. -/
structure Actor where
  app : App
  wg : WaitGroup
  exited : Bool
deriving DecidableEq

/-- The constructor `NewApp` with the fields `Wait` depends on: it allocates a
zero `sync.WaitGroup`, stores it, and starts `run` with `go r.run()`; it
makes no call to `wg.Add`. -/
def NewActor : Actor :=
  ⟨NewApp, ⟨0⟩, false⟩

/-- The method `Stop` on an actor. -/
def Actor.Stop (a : Actor) : Option Actor :=
  match a.app.Stop with
  | none => none
  | some app => some { a with app := app }

/-- The method `Wait`: `a.wg.Wait()`.  The result is `true` when the call
returns in this state and `false` when it blocks. -/
def Actor.Wait (a : Actor) : Bool :=
  a.wg.Wait

/-- The return of `run` once `commands` is closed and drained: the deferred
function calls `a.wg.Done()`.  The result `none` is the panic raised by
`Done`, which nothing in `run` recovers. -/
def Actor.runReturns (a : Actor) : Option Actor :=
  match a.wg.Done with
  | none => none
  | some wg => some { a with wg := wg, exited := true }

/-- The actor that `NewApp` built, once its loop has consumed the commands
`cmds`: nothing has touched the WaitGroup, and `run` has not returned. -/
def Actor.after (S : SortFunc) (cmds : List appCommand) : Actor :=
  ⟨App.after S cmds, ⟨0⟩, false⟩

/-- The call `Stop()`, then the return of `run` that the closed and drained
channel brings about, then the facade call `call`.  The result `none` means
that a panic nobody recovers has ended the process before the call could
return; otherwise the actor and what the call returned. -/
def Actor.stopThenCall {ρ : Type} (a : Actor) (call : App → App × ρ) : Option (Actor × ρ) :=
  match a.Stop with
  | none => none
  | some a1 =>
    match a1.runReturns with
    | none => none
    | some a2 => some ({ a2 with app := (call a2.app).1 }, (call a2.app).2)

/-! ## Vocabulary of the specification -/

/-- The content tuple `(FirstName, LastName, Email)` of a contact. -/
def Contact.key (c : Contact) : String × String × String :=
  (c.FirstName, c.LastName, c.Email)

/-- Non-decreasing lexicographic order of the content tuples of two contacts. -/
def keyLe (a b : Contact) : Prop :=
  a.FirstName < b.FirstName ∨
    (a.FirstName = b.FirstName ∧
      (a.LastName < b.LastName ∨ (a.LastName = b.LastName ∧ a.Email ≤ b.Email)))

/-- The content tuple in the lexicographic order of its components. -/
def ordKey (c : Contact) : String ×ₗ String ×ₗ String :=
  toLex (c.FirstName, toLex (c.LastName, c.Email))

/-- The invariant of the state of `run` between two commands: the contacts
are in content order, their IDs are pairwise distinct and lie between `1`
and `currentID`. -/
structure Inv (st : Store) : Prop where
  sorted : st.contacts.Pairwise keyLe
  idRange : ∀ c ∈ st.contacts, 1 ≤ c.ID ∧ c.ID ≤ st.currentID
  idNodup : (st.contacts.map Contact.ID).Nodup
  idNonneg : 0 ≤ st.currentID

/-- The command the facade builds for `AddContact(firstName, lastName, email)`. -/
def addCmd (t : String × String × String) : appCommand :=
  ⟨.addContact, ⟨0, t.1, t.2.1, t.2.2⟩⟩

/-- The command the facade builds for `DeleteContact(id)`. -/
def deleteCmd (id : Int) : appCommand :=
  ⟨.deleteContact, { Contact.zero with ID := id }⟩

/-- The command the facade builds for `UpdateContact(id, firstName, lastName, email)`. -/
def updateCmd (id : Int) (firstName lastName email : String) : appCommand :=
  ⟨.updateContact, ⟨id, firstName, lastName, email⟩⟩

/-- Whether the loop iteration for `cmd` in state `st` appends a new contact:
`cmd` is an `addContact` whose content the binary search does not find. -/
def inserts (st : Store) (cmd : appCommand) : Bool :=
  decide (cmd.tag = .addContact) &&
    !(findIndexByContent st
      ⟨0, cmd.inContact.FirstName, cmd.inContact.LastName, cmd.inContact.Email⟩).2

/-- The number of commands of `cmds` that append a new contact when the loop
runs them from `st`. -/
def insertingAdds (S : SortFunc) : Store → List appCommand → Nat
  | _, [] => 0
  | st, cmd :: cmds =>
    (if inserts st cmd then 1 else 0) + insertingAdds S (exec S st cmd).1 cmds

/-! ## The comparison function -/

theorem contactCmp_neg_iff (a b : Contact) : contactCmp a b < 0 ↔ ordKey a < ordKey b := by
  unfold contactCmp ordKey
  simp only [Prod.Lex.lt_iff, ofLex_toLex, gt_iff_lt]
  split_ifs with h1 h2 h3 h4 h5 h6
  · simp [h1]
  · have := lt_asymm h2; simp [h1, ne_of_gt h2]
  · have e1 : a.FirstName = b.FirstName := le_antisymm (not_lt.1 h2) (not_lt.1 h1)
    simp [e1, h3]
  · have e1 : a.FirstName = b.FirstName := le_antisymm (not_lt.1 h2) (not_lt.1 h1)
    simp [e1, h3, ne_of_gt h4]
  · have e1 : a.FirstName = b.FirstName := le_antisymm (not_lt.1 h2) (not_lt.1 h1)
    have e2 : a.LastName = b.LastName := le_antisymm (not_lt.1 h4) (not_lt.1 h3)
    simp [e1, e2, h5]
  · have e1 : a.FirstName = b.FirstName := le_antisymm (not_lt.1 h2) (not_lt.1 h1)
    have e2 : a.LastName = b.LastName := le_antisymm (not_lt.1 h4) (not_lt.1 h3)
    simp [e1, e2, h5]
  · have e1 : a.FirstName = b.FirstName := le_antisymm (not_lt.1 h2) (not_lt.1 h1)
    have e2 : a.LastName = b.LastName := le_antisymm (not_lt.1 h4) (not_lt.1 h3)
    simp [e1, e2, h5]

theorem contactCmp_pos_iff (a b : Contact) : 0 < contactCmp a b ↔ ordKey b < ordKey a := by
  unfold contactCmp ordKey
  simp only [Prod.Lex.lt_iff, ofLex_toLex, gt_iff_lt]
  split_ifs with h1 h2 h3 h4 h5 h6
  · simp [lt_asymm h1, ne_of_gt h1]
  · simp [h2]
  · have e1 : a.FirstName = b.FirstName := le_antisymm (not_lt.1 h2) (not_lt.1 h1)
    simp [e1, lt_asymm h3, ne_of_gt h3]
  · have e1 : a.FirstName = b.FirstName := le_antisymm (not_lt.1 h2) (not_lt.1 h1)
    simp [e1, h4]
  · have e1 : a.FirstName = b.FirstName := le_antisymm (not_lt.1 h2) (not_lt.1 h1)
    have e2 : a.LastName = b.LastName := le_antisymm (not_lt.1 h4) (not_lt.1 h3)
    simp [e1, e2, lt_asymm h5]
  · have e1 : a.FirstName = b.FirstName := le_antisymm (not_lt.1 h2) (not_lt.1 h1)
    have e2 : a.LastName = b.LastName := le_antisymm (not_lt.1 h4) (not_lt.1 h3)
    simp [e1, e2, h6]
  · have e1 : a.FirstName = b.FirstName := le_antisymm (not_lt.1 h2) (not_lt.1 h1)
    have e2 : a.LastName = b.LastName := le_antisymm (not_lt.1 h4) (not_lt.1 h3)
    simp [e1, e2, h6]

theorem contactCmp_le_iff (a b : Contact) : contactCmp a b ≤ 0 ↔ ordKey a ≤ ordKey b := by
  rw [← not_lt, contactCmp_pos_iff, not_lt]

theorem contactCmp_eq_zero_iff (a b : Contact) : contactCmp a b = 0 ↔ ordKey a = ordKey b := by
  have h1 := contactCmp_neg_iff a b
  have h2 := contactCmp_pos_iff a b
  constructor
  · intro h
    have n1 : ¬ ordKey a < ordKey b := fun hlt => by have := h1.2 hlt; omega
    have n2 : ¬ ordKey b < ordKey a := fun hlt => by have := h2.2 hlt; omega
    exact le_antisymm (not_lt.1 n2) (not_lt.1 n1)
  · intro h
    have n1 : ¬ contactCmp a b < 0 := fun hlt => by have := h1.1 hlt; rw [h] at this; exact lt_irrefl _ this
    have n2 : ¬ 0 < contactCmp a b := fun hlt => by have := h2.1 hlt; rw [h] at this; exact lt_irrefl _ this
    omega

theorem ordKey_eq_iff (a b : Contact) : ordKey a = ordKey b ↔ a.key = b.key := by
  unfold ordKey Contact.key
  constructor
  · intro h
    have h1 := congrArg (fun k => (ofLex k).1) h
    have h2 := congrArg (fun k => (ofLex (ofLex k).2).1) h
    have h3 := congrArg (fun k => (ofLex (ofLex k).2).2) h
    simp only [ofLex_toLex] at h1 h2 h3
    rw [h1, h2, h3]
  · intro h
    simp only [Prod.mk.injEq] at h
    rw [h.1, h.2.1, h.2.2]

theorem ordKey_le_iff (a b : Contact) : ordKey a ≤ ordKey b ↔ keyLe a b := by
  unfold ordKey keyLe
  simp only [Prod.Lex.le_iff, ofLex_toLex]

theorem contactCmp_le_iff_keyLe (a b : Contact) : contactCmp a b ≤ 0 ↔ keyLe a b := by
  rw [contactCmp_le_iff, ordKey_le_iff]

theorem contactCmp_eq_zero_iff_key (a b : Contact) : contactCmp a b = 0 ↔ a.key = b.key := by
  rw [contactCmp_eq_zero_iff, ordKey_eq_iff]

/-! ## Binary search -/

/-- The iteration bound of `bsearchLoop` is never the reason the loop stops:
any two bounds of at least `j - i` give the same result. -/
theorem bsearchLoop_fuel {α τ : Type} (x : List α) (target : τ) (cmp : α → τ → Int) :
    ∀ fuel fuel1 i j, j - i ≤ fuel → j - i ≤ fuel1 →
      bsearchLoop x target cmp fuel i j = bsearchLoop x target cmp fuel1 i j := by
  intro fuel
  induction fuel with
  | zero =>
    intro fuel1 i j h _
    cases fuel1 with
    | zero => rfl
    | succ n =>
      unfold bsearchLoop
      rw [if_neg (by omega)]
  | succ fuel ih =>
    intro fuel1 i j h h1
    cases fuel1 with
    | zero =>
      unfold bsearchLoop
      rw [if_neg (by omega)]
    | succ n =>
      unfold bsearchLoop
      by_cases hlt : i < j
      · simp only [hlt, if_true]
        cases x[(i + j) / 2]? with
        | none => rfl
        | some e =>
          simp only
          split_ifs
          · exact ih n ((i + j) / 2 + 1) j (by omega) (by omega)
          · exact ih n i ((i + j) / 2) (by omega) (by omega)
      · simp only [hlt, if_false]

theorem bsearchLoop_spec (x : List Contact) (t : Contact)
    (hs : x.Pairwise (fun a b => ordKey a ≤ ordKey b)) :
    ∀ fuel i j, j - i ≤ fuel → i ≤ j → j ≤ x.length →
      (∀ k (hk : k < x.length), k < i → ordKey x[k] < ordKey t) →
      (∀ k (hk : k < x.length), j ≤ k → ordKey t ≤ ordKey x[k]) →
      bsearchLoop x t contactCmp fuel i j ≤ x.length ∧
      (∀ k (hk : k < x.length), k < bsearchLoop x t contactCmp fuel i j →
        ordKey x[k] < ordKey t) ∧
      (∀ k (hk : k < x.length), bsearchLoop x t contactCmp fuel i j ≤ k →
        ordKey t ≤ ordKey x[k]) := by
  intro fuel
  induction fuel with
  | zero =>
    intro i j hf hij hjn hlo hhi
    have e : i = j := by omega
    subst e
    exact ⟨hjn, hlo, hhi⟩
  | succ fuel ih =>
    intro i j hf hij hjn hlo hhi
    unfold bsearchLoop
    by_cases hlt : i < j
    · have hh : (i + j) / 2 < x.length := by omega
      simp only [hlt, if_true, List.getElem?_eq_getElem hh]
      by_cases hc : contactCmp x[(i + j) / 2] t < 0
      · simp only [hc, if_true]
        have hc1 := (contactCmp_neg_iff _ _).1 hc
        apply ih ((i + j) / 2 + 1) j (by omega) (by omega) hjn _ hhi
        intro k hk hk2
        rcases Nat.lt_or_ge k ((i + j) / 2) with h | h
        · exact lt_of_le_of_lt (List.pairwise_iff_getElem.1 hs k ((i + j) / 2) hk hh h) hc1
        · have e : k = (i + j) / 2 := by omega
          subst e
          exact hc1
      · simp only [hc, if_false]
        have hc1 : ordKey t ≤ ordKey x[(i + j) / 2] := by
          rw [← not_lt, ← contactCmp_neg_iff]
          exact hc
        apply ih i ((i + j) / 2) (by omega) (by omega) (by omega) hlo
        intro k hk hk2
        rcases Nat.lt_or_ge ((i + j) / 2) k with h | h
        · exact le_trans hc1 (List.pairwise_iff_getElem.1 hs ((i + j) / 2) k hh hk h)
        · have e : k = (i + j) / 2 := by omega
          subst e
          exact hc1
    · have e : i = j := by omega
      subst e
      simp only [hlt, if_false]
      exact ⟨hjn, hlo, hhi⟩

theorem pairwise_keyLe_iff (x : List Contact) :
    x.Pairwise keyLe ↔ x.Pairwise (fun a b => ordKey a ≤ ordKey b) := by
  constructor
  · exact fun h => h.imp (fun {a b} hab => (ordKey_le_iff a b).2 hab)
  · exact fun h => h.imp (fun {a b} hab => (ordKey_le_iff a b).1 hab)

theorem BinarySearchFunc_found_iff (x : List Contact) (t : Contact) (hs : x.Pairwise keyLe) :
    (BinarySearchFunc x t contactCmp).2 = true ↔ ∃ e ∈ x, e.key = t.key := by
  have hs1 := (pairwise_keyLe_iff x).1 hs
  obtain ⟨hn, hlo, hhi⟩ := bsearchLoop_spec x t hs1 x.length 0 x.length (by omega) (by omega)
    (le_refl _) (fun k _ hk => absurd hk (Nat.not_lt_zero k))
    (fun k hk hk2 => absurd hk (by omega))
  unfold BinarySearchFunc
  simp only
  generalize bsearchLoop x t contactCmp x.length 0 x.length = r at hn hlo hhi
  constructor
  · intro h
    by_cases hr : r < x.length
    · rw [List.getElem?_eq_getElem hr] at h
      simp only [decide_eq_true_eq] at h
      exact ⟨x[r], List.getElem_mem _, (contactCmp_eq_zero_iff_key _ _).1 h⟩
    · rw [List.getElem?_eq_none (by omega)] at h
      exact absurd h (by simp)
  · rintro ⟨e, he, hk⟩
    obtain ⟨k, hkl, rfl⟩ := List.getElem_of_mem he
    have heq : ordKey x[k] = ordKey t := (ordKey_eq_iff _ _).2 hk
    have hrk : r ≤ k := by
      by_contra hcon
      have := hlo k hkl (by omega)
      rw [heq] at this
      exact lt_irrefl _ this
    have hr : r < x.length := by omega
    rw [List.getElem?_eq_getElem hr]
    simp only [decide_eq_true_eq]
    rw [contactCmp_eq_zero_iff]
    apply le_antisymm
    · rw [← heq]
      rcases Nat.lt_or_ge r k with h | h
      · exact List.pairwise_iff_getElem.1 hs1 r k hr hkl h
      · have e : r = k := by omega
        subst e
        exact le_refl _
    · exact hhi r hr (le_refl _)

/-! ## Insertion sort meets the contract of `slices.SortFunc` -/

theorem insertBack_perm {α : Type} (cmp : α → α → Int) (e : α) (l : List α) :
    (insertBack cmp e l).Perm (e :: l) := by
  induction l with
  | nil => exact List.Perm.refl _
  | cons p rest ih =>
    unfold insertBack
    split_ifs
    · exact (List.Perm.cons p ih).trans (List.Perm.swap e p rest)
    · exact List.Perm.refl _

theorem foldl_insertBack_perm {α : Type} (cmp : α → α → Int) (data acc : List α) :
    (data.foldl (fun acc e => insertBack cmp e acc) acc).Perm (data ++ acc) := by
  induction data generalizing acc with
  | nil => exact List.Perm.refl _
  | cons e data ih =>
    simp only [List.foldl_cons]
    refine (ih _).trans ?_
    exact (List.Perm.append_left data (insertBack_perm cmp e acc)).trans List.perm_middle

theorem insertionSortCmpFunc_perm {α : Type} (cmp : α → α → Int) (data : List α) :
    (insertionSortCmpFunc cmp data).Perm data := by
  unfold insertionSortCmpFunc
  refine (List.reverse_perm _).trans ((foldl_insertBack_perm cmp data []).trans ?_)
  rw [List.append_nil]

theorem insertBack_descending (e : Contact) (l : List Contact)
    (h : l.Pairwise (fun a b => ordKey b ≤ ordKey a)) :
    (insertBack contactCmp e l).Pairwise (fun a b => ordKey b ≤ ordKey a) := by
  induction l with
  | nil => simp [insertBack]
  | cons p rest ih =>
    unfold insertBack
    rw [List.pairwise_cons] at h
    split_ifs with hc
    · rw [List.pairwise_cons]
      refine ⟨?_, ih h.2⟩
      intro b hb
      rcases List.mem_cons.1 ((insertBack_perm contactCmp e rest).mem_iff.1 hb) with hb1 | hb1
      · subst hb1
        exact le_of_lt ((contactCmp_neg_iff _ _).1 hc)
      · exact h.1 b hb1
    · have hpe : ordKey p ≤ ordKey e := by
        rw [← not_lt, ← contactCmp_neg_iff]
        exact hc
      rw [List.pairwise_cons]
      refine ⟨?_, List.pairwise_cons.2 h⟩
      intro b hb
      rcases List.mem_cons.1 hb with hb1 | hb1
      · subst hb1
        exact hpe
      · exact le_trans (h.1 b hb1) hpe

theorem foldl_insertBack_descending (data acc : List Contact)
    (h : acc.Pairwise (fun a b => ordKey b ≤ ordKey a)) :
    (data.foldl (fun acc e => insertBack contactCmp e acc) acc).Pairwise
      (fun a b => ordKey b ≤ ordKey a) := by
  induction data generalizing acc with
  | nil => exact h
  | cons e data ih =>
    simp only [List.foldl_cons]
    exact ih _ (insertBack_descending e acc h)

theorem insertionSortCmpFunc_sorted (data : List Contact) :
    (insertionSortCmpFunc contactCmp data).Pairwise (fun a b => contactCmp a b ≤ 0) := by
  unfold insertionSortCmpFunc
  rw [List.pairwise_reverse]
  refine (foldl_insertBack_descending data [] List.Pairwise.nil).imp ?_
  intro a b hab
  exact (contactCmp_le_iff b a).2 hab

/-- The library's insertion sort as an implementation of `slices.SortFunc`. -/
def insertionSort : SortFunc where
  sort := insertionSortCmpFunc contactCmp
  perm := insertionSortCmpFunc_perm contactCmp
  sorted := insertionSortCmpFunc_sorted

theorem SortFunc.sorted_keyLe (S : SortFunc) (l : List Contact) :
    (S.sort l).Pairwise keyLe :=
  (S.sorted l).imp (fun {a b} h => (contactCmp_le_iff_keyLe a b).1 h)

/-! ## Linear search, deletion, in-place update -/

theorem IndexFunc_go_none {α : Type} (f : α → Bool) (s : List α) (i : Int)
    (h : ∀ a ∈ s, f a = false) : IndexFunc.go f s i = -1 := by
  induction s generalizing i with
  | nil => rfl
  | cons a s ih =>
    unfold IndexFunc.go
    rw [h a (List.mem_cons_self a s)]
    simp only [Bool.false_eq_true, if_false]
    exact ih _ (fun b hb => h b (List.mem_cons_of_mem a hb))

theorem IndexFunc_go_split {α : Type} (f : α → Bool) (pre : List α) (c : α) (post : List α)
    (i : Int) (hpre : ∀ a ∈ pre, f a = false) (hc : f c = true) :
    IndexFunc.go f (pre ++ c :: post) i = i + pre.length := by
  induction pre generalizing i with
  | nil => simp [IndexFunc.go, hc]
  | cons a pre ih =>
    rw [List.cons_append]
    unfold IndexFunc.go
    rw [hpre a (List.mem_cons_self a pre)]
    simp only [Bool.false_eq_true, if_false]
    rw [ih _ (fun b hb => hpre b (List.mem_cons_of_mem a hb))]
    simp only [List.length_cons, Nat.cast_add, Nat.cast_one]
    omega

theorem exists_first_split {α : Type} (f : α → Bool) (s : List α) (h : ∃ a ∈ s, f a = true) :
    ∃ pre c post, s = pre ++ c :: post ∧ (∀ a ∈ pre, f a = false) ∧ f c = true := by
  induction s with
  | nil =>
    obtain ⟨a, ha, _⟩ := h
    exact absurd ha (List.not_mem_nil a)
  | cons b s ih =>
    by_cases hb : f b = true
    · exact ⟨[], b, s, rfl, fun a ha => absurd ha (List.not_mem_nil a), hb⟩
    · have hs : ∃ a ∈ s, f a = true := by
        obtain ⟨a, ha, hfa⟩ := h
        rcases List.mem_cons.1 ha with e | e
        · subst e
          exact absurd hfa hb
        · exact ⟨a, e, hfa⟩
      obtain ⟨pre, c, post, e, hpre, hc⟩ := ih hs
      refine ⟨b :: pre, c, post, by rw [e, List.cons_append], ?_, hc⟩
      intro a ha
      rcases List.mem_cons.1 ha with e1 | e1
      · subst e1
        simpa using hb
      · exact hpre a e1

theorem findIndexByID_absent (st : Store) (id : Int) (h : ∀ c ∈ st.contacts, c.ID ≠ id) :
    findIndexByID st id = -1 := by
  unfold findIndexByID IndexFunc
  exact IndexFunc_go_none _ _ _ (fun a ha => by simpa using h a ha)

theorem findIndexByID_split (st : Store) (id : Int) (pre : List Contact) (c : Contact)
    (post : List Contact) (e : st.contacts = pre ++ c :: post)
    (hpre : ∀ a ∈ pre, a.ID ≠ id) (hc : c.ID = id) :
    findIndexByID st id = pre.length := by
  unfold findIndexByID IndexFunc
  rw [e, IndexFunc_go_split _ pre c post 0 (fun a ha => by simpa using hpre a ha)
    (by simpa using hc)]
  simp

theorem exists_first_id (l : List Contact) (id : Int) (h : ∃ c ∈ l, c.ID = id) :
    ∃ pre c post, l = pre ++ c :: post ∧ (∀ a ∈ pre, a.ID ≠ id) ∧ c.ID = id := by
  obtain ⟨pre, c, post, e, hpre, hc⟩ :=
    exists_first_split (fun a : Contact => decide (a.ID = id)) l
      (by obtain ⟨c, hc, hid⟩ := h; exact ⟨c, hc, by simpa using hid⟩)
  exact ⟨pre, c, post, e, fun a ha => by simpa using hpre a ha, by simpa using hc⟩

theorem Delete_take {α : Type} [Inhabited α] (pre : List α) (c : α) (post : List α) :
    (Delete (pre ++ c :: post) pre.length (pre.length + 1)).take
      ((Delete (pre ++ c :: post) pre.length (pre.length + 1)).length - 1) = pre ++ post := by
  have h : Delete (pre ++ c :: post) pre.length (pre.length + 1) = (pre ++ post) ++ [default] := by
    unfold Delete
    simp
  rw [h, List.length_append, List.length_singleton, Nat.add_sub_cancel]
  exact List.take_left' rfl

theorem modify_split {α : Type} (f : α → α) (pre : List α) (c : α) (post : List α) :
    List.modify f pre.length (pre ++ c :: post) = pre ++ f c :: post := by
  induction pre with
  | nil => rfl
  | cons a pre ih =>
    simp only [List.cons_append, List.length_cons, List.modify_succ_cons, ih]

theorem getD_split {α : Type} (pre : List α) (c : α) (post : List α) (d : α) :
    (pre ++ c :: post).getD pre.length d = c := by
  induction pre with
  | nil => rfl
  | cons a pre ih => simpa using ih

/-! ## The helpers of `run`, case by case -/

theorem ac_found (S : SortFunc) (st : Store) (f l e : String)
    (hs : st.contacts.Pairwise keyLe) (h : ∃ c ∈ st.contacts, c.key = (f, l, e)) :
    ac S st f l e = st := by
  have hb : (findIndexByContent st ⟨0, f, l, e⟩).2 = true :=
    (BinarySearchFunc_found_iff st.contacts ⟨0, f, l, e⟩ hs).2 h
  unfold ac
  simp only [hb, Bool.not_true, Bool.false_eq_true, if_false]

theorem ac_fresh (S : SortFunc) (st : Store) (f l e : String)
    (hs : st.contacts.Pairwise keyLe) (h : ¬ ∃ c ∈ st.contacts, c.key = (f, l, e)) :
    ac S st f l e =
      ⟨st.currentID + 1, S.sort (st.contacts ++ [⟨st.currentID + 1, f, l, e⟩])⟩ := by
  have hb : (findIndexByContent st ⟨0, f, l, e⟩).2 = false := by
    rw [← Bool.not_eq_true]
    exact fun hb => h ((BinarySearchFunc_found_iff st.contacts ⟨0, f, l, e⟩ hs).1 hb)
  unfold ac
  simp only [hb, Bool.not_false, if_true, sortContacts]

theorem uc_absent (S : SortFunc) (st : Store) (id : Int) (f l e : String)
    (h : ∀ c ∈ st.contacts, c.ID ≠ id) : uc S st id f l e = st := by
  unfold uc
  rw [findIndexByID_absent st id h]
  simp

theorem uc_present (S : SortFunc) (st : Store) (id : Int) (f l e : String)
    (pre : List Contact) (c : Contact) (post : List Contact)
    (hsplit : st.contacts = pre ++ c :: post) (hpre : ∀ a ∈ pre, a.ID ≠ id) (hc : c.ID = id) :
    uc S st id f l e = ⟨st.currentID, S.sort (pre ++ ⟨id, f, l, e⟩ :: post)⟩ := by
  unfold uc
  rw [findIndexByID_split st id pre c post hsplit hpre hc]
  simp only [ge_iff_le, Nat.cast_nonneg, if_true, Int.toNat_ofNat, sortContacts, hsplit,
    modify_split, hc]

theorem exec_delete_absent (S : SortFunc) (st : Store) (ic : Contact)
    (h : ∀ c ∈ st.contacts, c.ID ≠ ic.ID) : exec S st ⟨.deleteContact, ic⟩ = (st, none) := by
  unfold exec
  simp only [findIndexByID_absent st ic.ID h]
  simp

theorem exec_delete_present (S : SortFunc) (st : Store) (ic : Contact)
    (pre : List Contact) (c : Contact) (post : List Contact)
    (hsplit : st.contacts = pre ++ c :: post) (hpre : ∀ a ∈ pre, a.ID ≠ ic.ID)
    (hc : c.ID = ic.ID) :
    exec S st ⟨.deleteContact, ic⟩ = (⟨st.currentID, pre ++ post⟩, none) := by
  unfold exec
  simp only [findIndexByID_split st ic.ID pre c post hsplit hpre hc]
  simp only [ge_iff_le, Nat.cast_nonneg, if_true, Int.toNat_ofNat, hsplit, Delete_take]

theorem exec_details_absent (S : SortFunc) (st : Store) (ic : Contact)
    (h : ∀ c ∈ st.contacts, c.ID ≠ ic.ID) :
    exec S st ⟨.contactDetails, ic⟩ = (st, none) := by
  unfold exec
  simp only [findIndexByID_absent st ic.ID h]
  simp

theorem exec_details_present (S : SortFunc) (st : Store) (ic : Contact)
    (pre : List Contact) (c : Contact) (post : List Contact)
    (hsplit : st.contacts = pre ++ c :: post) (hpre : ∀ a ∈ pre, a.ID ≠ ic.ID)
    (hc : c.ID = ic.ID) :
    exec S st ⟨.contactDetails, ic⟩ = (st, some (.contact c)) := by
  unfold exec
  simp only [findIndexByID_split st ic.ID pre c post hsplit hpre hc]
  simp only [ge_iff_le, Nat.cast_nonneg, if_true, Int.toNat_ofNat, hsplit, getD_split]

theorem exec_details_store (S : SortFunc) (st : Store) (ic : Contact) :
    (exec S st ⟨.contactDetails, ic⟩).1 = st := by
  unfold exec
  simp only
  split_ifs <;> rfl

/-! ## The invariant of the loop -/

theorem Inv_init : Inv Store.init :=
  ⟨List.Pairwise.nil, fun c hc => absurd hc (List.not_mem_nil c), List.nodup_nil, le_refl _⟩

theorem ac_inv (S : SortFunc) (st : Store) (f l e : String) (h : Inv st) :
    Inv (ac S st f l e) := by
  by_cases hk : ∃ c ∈ st.contacts, c.key = (f, l, e)
  · rw [ac_found S st f l e h.sorted hk]
    exact h
  · rw [ac_fresh S st f l e h.sorted hk]
    have hp := S.perm (st.contacts ++ [⟨st.currentID + 1, f, l, e⟩])
    have hn := h.idNonneg
    refine ⟨S.sorted_keyLe _, ?_, ?_, by simp only; omega⟩
    · intro c hc
      rcases List.mem_append.1 (hp.mem_iff.1 hc) with hc1 | hc1
      · have := h.idRange c hc1
        simp only
        omega
      · rw [List.mem_singleton] at hc1
        subst hc1
        simp only
        omega
    · rw [(hp.map Contact.ID).nodup_iff, List.map_append, List.map_singleton]
      refine List.Nodup.append h.idNodup (List.nodup_singleton _) ?_
      intro x hx hx2
      rw [List.mem_singleton] at hx2
      obtain ⟨c, hc, rfl⟩ := List.mem_map.1 hx
      have := h.idRange c hc
      simp only at hx2
      omega

theorem split_nodup_ne (pre : List Contact) (c : Contact) (post : List Contact)
    (h : ((pre ++ c :: post).map Contact.ID).Nodup) : ∀ a ∈ pre ++ post, a.ID ≠ c.ID := by
  rw [List.map_append, List.map_cons] at h
  have h1 := List.nodup_middle.1 h
  rw [List.nodup_cons, ← List.map_append] at h1
  intro a ha hid
  exact h1.1 (hid ▸ List.mem_map_of_mem Contact.ID ha)

theorem delete_inv (S : SortFunc) (st : Store) (ic : Contact) (h : Inv st) :
    Inv (exec S st ⟨.deleteContact, ic⟩).1 := by
  by_cases hk : ∃ c ∈ st.contacts, c.ID = ic.ID
  · obtain ⟨pre, c, post, hsplit, hpre, hc⟩ := exists_first_id st.contacts ic.ID hk
    rw [exec_delete_present S st ic pre c post hsplit hpre hc]
    have hsub : List.Sublist (pre ++ post) st.contacts := by
      rw [hsplit]
      exact (List.sublist_cons_self c post).append_left pre
    refine ⟨h.sorted.sublist hsub, fun a ha => h.idRange a (hsub.subset ha),
      h.idNodup.sublist (hsub.map Contact.ID), h.idNonneg⟩
  · rw [exec_delete_absent S st ic (fun c hc hid => hk ⟨c, hc, hid⟩)]
    exact h

theorem uc_inv (S : SortFunc) (st : Store) (id : Int) (f l e : String) (h : Inv st) :
    Inv (uc S st id f l e) := by
  by_cases hk : ∃ c ∈ st.contacts, c.ID = id
  · obtain ⟨pre, c, post, hsplit, hpre, hc⟩ := exists_first_id st.contacts id hk
    rw [uc_present S st id f l e pre c post hsplit hpre hc]
    have hp := S.perm (pre ++ ⟨id, f, l, e⟩ :: post)
    have hids : (pre ++ (⟨id, f, l, e⟩ : Contact) :: post).map Contact.ID =
        st.contacts.map Contact.ID := by
      rw [hsplit, List.map_append, List.map_append, List.map_cons, List.map_cons, hc]
    refine ⟨S.sorted_keyLe _, ?_, ?_, h.idNonneg⟩
    · intro a ha
      have ha1 : a.ID ∈ st.contacts.map Contact.ID := by
        rw [← hids]
        exact List.mem_map_of_mem Contact.ID (hp.mem_iff.1 ha)
      obtain ⟨b, hb, hba⟩ := List.mem_map.1 ha1
      have := h.idRange b hb
      rw [hba] at this
      exact this
    · rw [(hp.map Contact.ID).nodup_iff, hids]
      exact h.idNodup
  · rw [uc_absent S st id f l e (fun c hc hid => hk ⟨c, hc, hid⟩)]
    exact h

theorem exec_inv (S : SortFunc) (st : Store) (cmd : appCommand) (h : Inv st) :
    Inv (exec S st cmd).1 := by
  obtain ⟨tag, ic⟩ := cmd
  cases tag with
  | addContact => exact ac_inv S st _ _ _ h
  | getContacts => exact h
  | contactDetails =>
    rw [exec_details_store]
    exact h
  | deleteContact => exact delete_inv S st ic h
  | updateContact => exact uc_inv S st _ _ _ _ h

theorem runFrom_inv (S : SortFunc) (cmds : List appCommand) (st : Store) (h : Inv st) :
    Inv (runFrom S st cmds) := by
  induction cmds generalizing st with
  | nil => exact h
  | cons cmd cmds ih => exact ih _ (exec_inv S st cmd h)

theorem run_inv (S : SortFunc) (cmds : List appCommand) : Inv (run S cmds) :=
  runFrom_inv S cmds Store.init Inv_init

/-! ## Runs of `AddContact` commands -/

theorem exec_addCmd (S : SortFunc) (st : Store) (t : String × String × String) :
    (exec S st (addCmd t)).1 = ac S st t.1 t.2.1 t.2.2 := rfl

theorem sorted_perm_unique (l₁ l₂ : List Contact) (hp : l₁.Perm l₂)
    (h₁ : l₁.Pairwise keyLe) (h₂ : l₂.Pairwise keyLe) (hn : (l₁.map Contact.key).Nodup) :
    l₁ = l₂ := by
  induction l₁ generalizing l₂ with
  | nil => exact hp.symm.eq_nil.symm
  | cons a t ih =>
    cases l₂ with
    | nil => exact absurd hp.eq_nil (List.cons_ne_nil a t)
    | cons b t2 =>
      rw [List.pairwise_cons] at h₁ h₂
      rw [List.map_cons, List.nodup_cons] at hn
      have hab : a = b := by
        by_contra hne
        have ha : a ∈ t2 := by
          rcases List.mem_cons.1 (hp.mem_iff.1 (List.mem_cons_self a t)) with e | e
          · exact absurd e hne
          · exact e
        have hb : b ∈ t := by
          rcases List.mem_cons.1 (hp.mem_iff.2 (List.mem_cons_self b t2)) with e | e
          · exact absurd e.symm hne
          · exact e
        have k1 := (ordKey_le_iff _ _).2 (h₁.1 b hb)
        have k2 := (ordKey_le_iff _ _).2 (h₂.1 a ha)
        have hk : a.key = b.key := (ordKey_eq_iff _ _).1 (le_antisymm k1 k2)
        exact hn.1 (hk ▸ List.mem_map_of_mem Contact.key hb)
      subst hab
      rw [ih t2 (List.Perm.cons_inv hp) h₁.2 h₂.2 hn.2]

theorem sort_eq_insertionSort (S : SortFunc) (l : List Contact)
    (hn : (l.map Contact.key).Nodup) : S.sort l = insertionSort.sort l := by
  apply sorted_perm_unique _ _ ((S.perm l).trans (insertionSort.perm l).symm)
    (S.sorted_keyLe l) (insertionSort.sorted_keyLe l)
  rw [((S.perm l).map Contact.key).nodup_iff]
  exact hn

theorem ac_keys (S : SortFunc) (st : Store) (f l e : String) (hs : st.contacts.Pairwise keyLe)
    (hn : (st.contacts.map Contact.key).Nodup) :
    ((ac S st f l e).contacts.map Contact.key).Nodup ∧
    (∀ t, t ∈ (ac S st f l e).contacts.map Contact.key ↔
      t ∈ st.contacts.map Contact.key ∨ t = (f, l, e)) ∧
    ac S st f l e = ac insertionSort st f l e := by
  by_cases hk : ∃ c ∈ st.contacts, c.key = (f, l, e)
  · rw [ac_found S st f l e hs hk, ac_found insertionSort st f l e hs hk]
    refine ⟨hn, fun t => ⟨Or.inl, ?_⟩, rfl⟩
    rintro (h | h)
    · exact h
    · obtain ⟨c, hc, hck⟩ := hk
      rw [h, ← hck]
      exact List.mem_map_of_mem Contact.key hc
  · rw [ac_fresh S st f l e hs hk, ac_fresh insertionSort st f l e hs hk]
    have hp := (S.perm (st.contacts ++ [⟨st.currentID + 1, f, l, e⟩])).map Contact.key
    have hn2 : ((st.contacts ++ [(⟨st.currentID + 1, f, l, e⟩ : Contact)]).map
        Contact.key).Nodup := by
      rw [List.map_append, List.map_singleton]
      refine List.Nodup.append hn (List.nodup_singleton _) ?_
      intro x hx hx2
      rw [List.mem_singleton] at hx2
      obtain ⟨c, hc, hck⟩ := List.mem_map.1 hx
      exact hk ⟨c, hc, hck.trans hx2⟩
    refine ⟨hp.nodup_iff.2 hn2, ?_, ?_⟩
    · intro t
      simp only
      rw [hp.mem_iff, List.map_append, List.map_singleton, List.mem_append, List.mem_singleton]
      exact Iff.rfl
    · rw [sort_eq_insertionSort S _ hn2]

theorem runFrom_adds (S : SortFunc) (ts : List (String × String × String)) (st : Store)
    (hi : Inv st) (hn : (st.contacts.map Contact.key).Nodup) :
    ((runFrom S st (ts.map addCmd)).contacts.map Contact.key).Nodup ∧
    (∀ t, t ∈ (runFrom S st (ts.map addCmd)).contacts.map Contact.key ↔
      t ∈ st.contacts.map Contact.key ∨ t ∈ ts) ∧
    runFrom S st (ts.map addCmd) = runFrom insertionSort st (ts.map addCmd) := by
  induction ts generalizing st with
  | nil => exact ⟨hn, fun t => by simp [runFrom], rfl⟩
  | cons t ts ih =>
    obtain ⟨k1, k2, k3⟩ := ac_keys S st t.1 t.2.1 t.2.2 hi.sorted hn
    have hi2 := ac_inv S st t.1 t.2.1 t.2.2 hi
    obtain ⟨r1, r2, r3⟩ := ih (ac S st t.1 t.2.1 t.2.2) hi2 k1
    have e1 : runFrom S st ((t :: ts).map addCmd) =
        runFrom S (ac S st t.1 t.2.1 t.2.2) (ts.map addCmd) := rfl
    have e2 : runFrom insertionSort st ((t :: ts).map addCmd) =
        runFrom insertionSort (ac insertionSort st t.1 t.2.1 t.2.2) (ts.map addCmd) := rfl
    rw [e1, e2]
    refine ⟨r1, ?_, ?_⟩
    · intro u
      rw [r2 u, k2 u, List.mem_cons, or_assoc]
    · rw [r3, k3]

theorem filter_key_length (l : List Contact) (t : String × String × String)
    (hn : (l.map Contact.key).Nodup) (ht : t ∈ l.map Contact.key) :
    (l.filter (fun c => decide (c.key = t))).length = 1 := by
  induction l with
  | nil => exact absurd ht (List.not_mem_nil t)
  | cons a l ih =>
    rw [List.map_cons, List.nodup_cons] at hn
    by_cases hat : a.key = t
    · rw [List.filter_cons_of_pos (by simpa using hat)]
      have hnil : l.filter (fun c => decide (c.key = t)) = [] := by
        rw [List.filter_eq_nil_iff]
        intro c hc hct
        have hct1 : c.key = t := by simpa using hct
        exact hn.1 (hat ▸ hct1 ▸ List.mem_map_of_mem Contact.key hc)
      rw [hnil]
      rfl
    · rw [List.filter_cons_of_neg (by simpa using hat)]
      apply ih hn.2
      rcases List.mem_cons.1 ht with e | e
      · exact absurd e.symm hat
      · exact e

theorem runFrom_append (S : SortFunc) (st : Store) (xs ys : List appCommand) :
    runFrom S st (xs ++ ys) = runFrom S (runFrom S st xs) ys := by
  unfold runFrom
  rw [List.foldl_append]

theorem runFrom_currentID (S : SortFunc) (cmds : List appCommand) (st : Store) :
    (runFrom S st cmds).currentID = st.currentID + (insertingAdds S st cmds : Int) := by
  induction cmds generalizing st with
  | nil => simp [runFrom, insertingAdds]
  | cons cmd cmds ih =>
    have e1 : runFrom S st (cmd :: cmds) = runFrom S (exec S st cmd).1 cmds := rfl
    rw [e1, ih, insertingAdds]
    have hstep : (exec S st cmd).1.currentID =
        st.currentID + (if inserts st cmd then 1 else 0 : Nat) := by
      obtain ⟨tag, ic⟩ := cmd
      cases tag with
      | addContact =>
        unfold inserts exec ac
        simp only [decide_True, Bool.true_and]
        cases hb : (findIndexByContent st ⟨0, ic.FirstName, ic.LastName, ic.Email⟩).2 <;>
          simp [sortContacts]
      | getContacts => simp [inserts, exec]
      | contactDetails => rw [exec_details_store]; simp [inserts]
      | deleteContact =>
        have hi : inserts st ⟨.deleteContact, ic⟩ = false := rfl
        rw [hi]
        simp only [Bool.false_eq_true, if_false, Nat.cast_zero, add_zero]
        unfold exec
        simp only
        split_ifs <;> rfl
      | updateContact =>
        have hi : inserts st ⟨.updateContact, ic⟩ = false := rfl
        rw [hi]
        simp only [Bool.false_eq_true, if_false, Nat.cast_zero, add_zero]
        unfold exec uc
        simp only
        split_ifs <;> rfl
    rw [hstep]
    push_cast
    ring

/-! ## The facade on a running actor -/

theorem AddContact_running (S : SortFunc) (st : Store) (f l e : String) :
    App.AddContact S ⟨false, st⟩ f l e = (⟨false, ac S st f l e⟩, none) := rfl

theorem GetContacts_running (S : SortFunc) (st : Store) :
    App.GetContacts S ⟨false, st⟩ = (⟨false, st⟩, st.contacts, none) := rfl

theorem DeleteContact_running (S : SortFunc) (st : Store) (id : Int) :
    App.DeleteContact S ⟨false, st⟩ id = (⟨false, (exec S st (deleteCmd id)).1⟩, none) := rfl

theorem UpdateContact_running (S : SortFunc) (st : Store) (id : Int) (f l e : String) :
    App.UpdateContact S ⟨false, st⟩ id f l e = (⟨false, uc S st id f l e⟩, none) := rfl

theorem ContactDetails_absent (S : SortFunc) (st : Store) (id : Int)
    (h : ∀ c ∈ st.contacts, c.ID ≠ id) :
    App.ContactDetails S ⟨false, st⟩ id = (⟨false, st⟩, Contact.zero, some .EOF) := by
  have hx := exec_details_absent S st { Contact.zero with ID := id } h
  unfold App.ContactDetails App.send
  simp only [Bool.false_eq_true, if_false, hx, recv]

theorem ContactDetails_present (S : SortFunc) (st : Store) (id : Int)
    (pre : List Contact) (c : Contact) (post : List Contact)
    (hsplit : st.contacts = pre ++ c :: post) (hpre : ∀ a ∈ pre, a.ID ≠ id) (hc : c.ID = id) :
    App.ContactDetails S ⟨false, st⟩ id = (⟨false, st⟩, c, none) := by
  have hx := exec_details_present S st { Contact.zero with ID := id } pre c post hsplit hpre hc
  unfold App.ContactDetails App.send
  simp only [Bool.false_eq_true, if_false, hx, recv]

/-! ## Properties of the specification -/

/-- C1 (sort invariant).  Whatever commands the loop has executed from the
empty store, after each of them (after the first `k`, for every `k`) the
contact list is in non-decreasing lexicographic order of
`(FirstName, LastName, Email)`, and `GetContacts` on the running actor
returns exactly that list with a nil error. -/
theorem C1_sort_invariant (S : SortFunc) (cmds : List appCommand) (k : Nat) :
    (run S (cmds.take k)).contacts.Pairwise keyLe ∧
    App.GetContacts S (App.after S (cmds.take k)) =
      (App.after S (cmds.take k), (run S (cmds.take k)).contacts, none) :=
  ⟨(run_inv S (cmds.take k)).sorted, rfl⟩

/-- C2 (dedup).  In every state reached from the empty store, if a live
contact has exactly the tuple `(f, l, e)` then `AddContact(f, l, e)` returns
nil and leaves the contact list and the ID counter as they were; and running
the same `AddContact` twice in a row gives the same state as running it
once. -/
theorem C2_dedup (S : SortFunc) (cmds : List appCommand) (f l e : String) :
    ((∃ c ∈ (run S cmds).contacts, c.key = (f, l, e)) →
      App.AddContact S (App.after S cmds) f l e = (App.after S cmds, none)) ∧
    run S (cmds ++ [addCmd (f, l, e), addCmd (f, l, e)]) = run S (cmds ++ [addCmd (f, l, e)]) := by
  have hi := run_inv S cmds
  constructor
  · intro h
    unfold App.after
    rw [AddContact_running, ac_found S _ f l e hi.sorted h]
  · have e2 : run S (cmds ++ [addCmd (f, l, e), addCmd (f, l, e)]) =
        ac S (ac S (run S cmds) f l e) f l e := by
      unfold run
      rw [runFrom_append]
      rfl
    have e1 : run S (cmds ++ [addCmd (f, l, e)]) = ac S (run S cmds) f l e := by
      unfold run
      rw [runFrom_append]
      rfl
    rw [e2, e1]
    have hi2 := ac_inv S (run S cmds) f l e hi
    apply ac_found S _ f l e hi2.sorted
    by_cases hk : ∃ c ∈ (run S cmds).contacts, c.key = (f, l, e)
    · rw [ac_found S _ f l e hi.sorted hk]
      exact hk
    · rw [ac_fresh S _ f l e hi.sorted hk]
      refine ⟨⟨(run S cmds).currentID + 1, f, l, e⟩, ?_, rfl⟩
      exact (S.perm _).mem_iff.2 (List.mem_append_right _ (List.mem_singleton_self _))

/-- Instance of C2: Bob Smith is stored, and adding him again changes nothing. -/
theorem C2_dedup_witness :
    (∃ c ∈ (run insertionSort [addCmd ("Bob", "Smith", "bob@x.com")]).contacts,
      c.key = ("Bob", "Smith", "bob@x.com")) ∧
    App.AddContact insertionSort (App.after insertionSort [addCmd ("Bob", "Smith", "bob@x.com")])
      "Bob" "Smith" "bob@x.com" =
      (App.after insertionSort [addCmd ("Bob", "Smith", "bob@x.com")], none) :=
  ⟨by decide,
   (C2_dedup insertionSort [addCmd ("Bob", "Smith", "bob@x.com")] "Bob" "Smith" "bob@x.com").1
     (by decide)⟩

/-- C3 (ID monotonicity).  After any commands from the empty store the ID
counter equals the number `n` of `AddContact` commands that inserted so far,
every live contact has an ID between `1` and `n`, and the live IDs are
pairwise distinct; an `AddContact(f, l, e)` that inserts next stores
`(n + 1, f, l, e)` beside the contacts already there, so its ID is positive
and larger than every ID handed out before, deleted ones included.  Example:
adding Bob Smith and then Alice Jones makes `GetContacts` return Alice with
ID 2 followed by Bob with ID 1. -/
theorem C3_id_monotonic (S : SortFunc) (cmds : List appCommand) (f l e : String) :
    (run S cmds).currentID = (insertingAdds S Store.init cmds : Int) ∧
    (∀ c ∈ (run S cmds).contacts,
      1 ≤ c.ID ∧ c.ID ≤ (insertingAdds S Store.init cmds : Int)) ∧
    ((run S cmds).contacts.map Contact.ID).Nodup ∧
    (inserts (run S cmds) (addCmd (f, l, e)) = true →
      (run S (cmds ++ [addCmd (f, l, e)])).contacts.Perm
        (⟨(insertingAdds S Store.init cmds : Int) + 1, f, l, e⟩ :: (run S cmds).contacts) ∧
      (run S (cmds ++ [addCmd (f, l, e)])).currentID =
        (insertingAdds S Store.init cmds : Int) + 1 ∧
      insertingAdds S Store.init (cmds ++ [addCmd (f, l, e)]) =
        insertingAdds S Store.init cmds + 1) ∧
    (App.GetContacts S (App.after S
        [addCmd ("Bob", "Smith", "bob@x.com"), addCmd ("Alice", "Jones", "alice@x.com")])).2.1 =
      [⟨2, "Alice", "Jones", "alice@x.com"⟩, ⟨1, "Bob", "Smith", "bob@x.com"⟩] := by
  have hi := run_inv S cmds
  have hid : (run S cmds).currentID = (insertingAdds S Store.init cmds : Int) := by
    unfold run
    rw [runFrom_currentID]
    simp [Store.init]
  refine ⟨hid, ?_, hi.idNodup, ?_, ?_⟩
  · intro c hc
    rw [← hid]
    exact hi.idRange c hc
  · intro hins
    have hb : (findIndexByContent (run S cmds) ⟨0, f, l, e⟩).2 = false := by
      unfold inserts addCmd at hins
      simpa using hins
    have e1 : run S (cmds ++ [addCmd (f, l, e)]) = ac S (run S cmds) f l e := by
      unfold run
      rw [runFrom_append]
      rfl
    have e2 : ac S (run S cmds) f l e = ⟨(run S cmds).currentID + 1,
        S.sort ((run S cmds).contacts ++ [⟨(run S cmds).currentID + 1, f, l, e⟩])⟩ := by
      unfold ac
      simp only [hb, Bool.not_false, if_true, sortContacts]
    have hcur : (run S (cmds ++ [addCmd (f, l, e)])).currentID =
        (insertingAdds S Store.init cmds : Int) + 1 := by
      rw [e1, e2, hid]
    refine ⟨?_, hcur, ?_⟩
    · rw [e1, e2, hid]
      exact (S.perm _).trans (List.perm_append_singleton _ _)
    · have h2 : (run S (cmds ++ [addCmd (f, l, e)])).currentID =
          (insertingAdds S Store.init (cmds ++ [addCmd (f, l, e)]) : Int) := by
        unfold run
        rw [runFrom_currentID]
        simp [Store.init]
      rw [h2] at hcur
      exact_mod_cast hcur
  · unfold App.after
    rw [GetContacts_running]
    have h := (runFrom_adds S [("Bob", "Smith", "bob@x.com"), ("Alice", "Jones", "alice@x.com")]
      Store.init Inv_init List.nodup_nil).2.2
    have h2 : run S [addCmd ("Bob", "Smith", "bob@x.com"),
        addCmd ("Alice", "Jones", "alice@x.com")] =
        runFrom insertionSort Store.init
          [addCmd ("Bob", "Smith", "bob@x.com"), addCmd ("Alice", "Jones", "alice@x.com")] := h
    simp only [h2]
    decide

/-- Instance of C3: after Bob Smith, adding Alice Jones inserts and moves the counter to 2. -/
theorem C3_id_monotonic_witness :
    inserts (run insertionSort [addCmd ("Bob", "Smith", "bob@x.com")])
      (addCmd ("Alice", "Jones", "alice@x.com")) = true ∧
    (run insertionSort ([addCmd ("Bob", "Smith", "bob@x.com")] ++
        [addCmd ("Alice", "Jones", "alice@x.com")])).currentID =
      (insertingAdds insertionSort Store.init [addCmd ("Bob", "Smith", "bob@x.com")] : Int) + 1 :=
  ⟨by decide,
   ((C3_id_monotonic insertionSort [addCmd ("Bob", "Smith", "bob@x.com")]
      "Alice" "Jones" "alice@x.com").2.2.2.1 (by decide)).2.1⟩

/-- C4 (ContactDetails).  On a running actor, in any state reached from the
empty store, `ContactDetails(id)` leaves the actor unchanged; it returns a nil
error together with a live contact whose ID is `id` exactly when some live
contact has that ID, and `io.EOF` exactly when none has; these are the only
two outcomes, and with an error the returned value is the zero `Contact`,
which is not a live contact. -/
theorem C4_contact_details (S : SortFunc) (cmds : List appCommand) (id : Int) :
    (App.ContactDetails S (App.after S cmds) id).1 = App.after S cmds ∧
    (((App.ContactDetails S (App.after S cmds) id).2.2 = none ∧
        (App.ContactDetails S (App.after S cmds) id).2.1 ∈ (run S cmds).contacts ∧
        (App.ContactDetails S (App.after S cmds) id).2.1.ID = id) ↔
      ∃ c ∈ (run S cmds).contacts, c.ID = id) ∧
    ((App.ContactDetails S (App.after S cmds) id).2.2 = some GoError.EOF ↔
      ¬ ∃ c ∈ (run S cmds).contacts, c.ID = id) ∧
    ((App.ContactDetails S (App.after S cmds) id).2.2 = none ∨
      (App.ContactDetails S (App.after S cmds) id).2.2 = some GoError.EOF) ∧
    ((App.ContactDetails S (App.after S cmds) id).2.2 ≠ none →
      (App.ContactDetails S (App.after S cmds) id).2.1 = Contact.zero ∧
      (App.ContactDetails S (App.after S cmds) id).2.1 ∉ (run S cmds).contacts) := by
  have hi := run_inv S cmds
  have hz : Contact.zero ∉ (run S cmds).contacts := by
    intro hz
    have := (hi.idRange _ hz).1
    simp [Contact.zero] at this
  unfold App.after
  by_cases hk : ∃ c ∈ (run S cmds).contacts, c.ID = id
  · obtain ⟨pre, c, post, hsplit, hpre, hc⟩ := exists_first_id _ id hk
    rw [ContactDetails_present S _ id pre c post hsplit hpre hc]
    have hmem : c ∈ (run S cmds).contacts := by
      rw [hsplit]
      exact List.mem_append_right _ (List.mem_cons_self c post)
    refine ⟨rfl, ⟨fun _ => hk, fun _ => ⟨rfl, hmem, hc⟩⟩, ?_, Or.inl rfl, ?_⟩
    · simp only [reduceCtorEq, false_iff, not_not]
      exact hk
    · intro h
      exact absurd rfl h
  · rw [ContactDetails_absent S _ id (fun c hc hid => hk ⟨c, hc, hid⟩)]
    refine ⟨rfl, ⟨fun h => ?_, fun h => absurd h hk⟩, ?_, Or.inr rfl, ?_⟩
    · simp only [reduceCtorEq, false_and] at h
    · simp only [true_iff]
      exact hk
    · intro _
      exact ⟨rfl, hz⟩

/-- C5 (DeleteContact postcondition).  In a state reached from the empty
store in which a live contact has ID `id`, `DeleteContact(id)` returns nil and
the list splits as `pre ++ c :: post` with `c` the one contact of ID `id`; the
new list is `pre ++ post`: one shorter, every other contact kept as it was and
in the same order, still sorted, and the ID counter is unchanged. -/
theorem C5_delete_postcondition (S : SortFunc) (cmds : List appCommand) (id : Int)
    (h : ∃ c ∈ (run S cmds).contacts, c.ID = id) :
    ∃ pre c post,
      (run S cmds).contacts = pre ++ c :: post ∧ c.ID = id ∧
      (∀ a ∈ pre ++ post, a.ID ≠ id) ∧
      App.DeleteContact S (App.after S cmds) id =
        (⟨false, ⟨(run S cmds).currentID, pre ++ post⟩⟩, none) ∧
      (pre ++ post).length + 1 = (run S cmds).contacts.length ∧
      (pre ++ post).Pairwise keyLe := by
  have hi := run_inv S cmds
  obtain ⟨pre, c, post, hsplit, hpre, hc⟩ := exists_first_id _ id h
  have hx := exec_delete_present S (run S cmds) { Contact.zero with ID := id } pre c post
    hsplit hpre hc
  have hne : ∀ a ∈ pre ++ post, a.ID ≠ id := by
    have := split_nodup_ne pre c post (hsplit ▸ hi.idNodup)
    rw [hc] at this
    exact this
  refine ⟨pre, c, post, hsplit, hc, hne, ?_, ?_, ?_⟩
  · unfold App.after
    rw [DeleteContact_running]
    unfold deleteCmd
    rw [hx]
  · rw [hsplit]
    simp only [List.length_append, List.length_cons]
    omega
  · have hsub : List.Sublist (pre ++ post) (run S cmds).contacts := by
      rw [hsplit]
      exact (List.sublist_cons_self c post).append_left pre
    exact hi.sorted.sublist hsub

/-- Instance of C5: deleting ID 1 from the store holding Alice (2) and Bob (1). -/
theorem C5_delete_postcondition_witness :
    (∃ c ∈ (run insertionSort [addCmd ("Bob", "Smith", "bob@x.com"),
        addCmd ("Alice", "Jones", "alice@x.com")]).contacts, c.ID = 1) ∧
    ∃ pre c post,
      (run insertionSort [addCmd ("Bob", "Smith", "bob@x.com"),
        addCmd ("Alice", "Jones", "alice@x.com")]).contacts = pre ++ c :: post ∧ c.ID = 1 ∧
      (∀ a ∈ pre ++ post, a.ID ≠ 1) ∧
      App.DeleteContact insertionSort (App.after insertionSort
        [addCmd ("Bob", "Smith", "bob@x.com"), addCmd ("Alice", "Jones", "alice@x.com")]) 1 =
        (⟨false, ⟨(run insertionSort [addCmd ("Bob", "Smith", "bob@x.com"),
          addCmd ("Alice", "Jones", "alice@x.com")]).currentID, pre ++ post⟩⟩, none) ∧
      (pre ++ post).length + 1 = (run insertionSort [addCmd ("Bob", "Smith", "bob@x.com"),
        addCmd ("Alice", "Jones", "alice@x.com")]).contacts.length ∧
      (pre ++ post).Pairwise keyLe :=
  ⟨by decide,
   C5_delete_postcondition insertionSort
     [addCmd ("Bob", "Smith", "bob@x.com"), addCmd ("Alice", "Jones", "alice@x.com")] 1
     (by decide)⟩

/-- C6 (delete then lookup).  In any state reached from the empty store and
for any `id`, `DeleteContact(id)` returns nil and a following
`ContactDetails(id)` returns `io.EOF`. -/
theorem C6_delete_then_lookup (S : SortFunc) (cmds : List appCommand) (id : Int) :
    (App.DeleteContact S (App.after S cmds) id).2 = none ∧
    (App.ContactDetails S (App.DeleteContact S (App.after S cmds) id).1 id).2.2 =
      some GoError.EOF := by
  have hi := run_inv S cmds
  unfold App.after
  rw [DeleteContact_running]
  refine ⟨rfl, ?_⟩
  have hgone : ∀ c ∈ (exec S (run S cmds) (deleteCmd id)).1.contacts, c.ID ≠ id := by
    unfold deleteCmd
    by_cases hk : ∃ c ∈ (run S cmds).contacts, c.ID = id
    · obtain ⟨pre, c, post, hsplit, hpre, hc⟩ := exists_first_id _ id hk
      rw [exec_delete_present S (run S cmds) { Contact.zero with ID := id } pre c post
        hsplit hpre hc]
      have := split_nodup_ne pre c post (hsplit ▸ hi.idNodup)
      rw [hc] at this
      exact this
    · rw [exec_delete_absent S (run S cmds) { Contact.zero with ID := id }
        (fun c hc hid => hk ⟨c, hc, hid⟩)]
      exact fun c hc hid => hk ⟨c, hc, hid⟩
  rw [ContactDetails_absent S _ id hgone]

/-- C7 (update preserves identity).  In a state reached from the empty store
in which a live contact has ID `id`, `UpdateContact(id, f, l, e)` returns nil
and the list that `GetContacts` returns next is a rearrangement of the old
list with the one contact of ID `id` replaced by `(id, f, l, e)`: it holds
exactly one contact of ID `id`, with the new fields; every other contact is
there unchanged; the length and the ID counter are unchanged; and the list is
sorted. -/
theorem C7_update_preserves_identity (S : SortFunc) (cmds : List appCommand) (id : Int)
    (f l e : String) (h : ∃ c ∈ (run S cmds).contacts, c.ID = id) :
    (App.UpdateContact S (App.after S cmds) id f l e).2 = none ∧
    (App.UpdateContact S (App.after S cmds) id f l e).1.store.currentID =
      (run S cmds).currentID ∧
    (App.GetContacts S (App.UpdateContact S (App.after S cmds) id f l e).1).2.2 = none ∧
    ∃ pre c post,
      (run S cmds).contacts = pre ++ c :: post ∧ c.ID = id ∧
      (∀ a ∈ pre ++ post, a.ID ≠ id) ∧
      (App.GetContacts S (App.UpdateContact S (App.after S cmds) id f l e).1).2.1.Perm
        (pre ++ ⟨id, f, l, e⟩ :: post) ∧
      (App.GetContacts S (App.UpdateContact S (App.after S cmds) id f l e).1).2.1.filter
        (fun x => decide (x.ID = id)) = [⟨id, f, l, e⟩] ∧
      (App.GetContacts S (App.UpdateContact S (App.after S cmds) id f l e).1).2.1.length =
        (run S cmds).contacts.length ∧
      (App.GetContacts S (App.UpdateContact S (App.after S cmds) id f l e).1).2.1.Pairwise
        keyLe := by
  have hi := run_inv S cmds
  obtain ⟨pre, c, post, hsplit, hpre, hc⟩ := exists_first_id _ id h
  have hne : ∀ a ∈ pre ++ post, a.ID ≠ id := by
    have := split_nodup_ne pre c post (hsplit ▸ hi.idNodup)
    rw [hc] at this
    exact this
  unfold App.after
  rw [UpdateContact_running, GetContacts_running,
    uc_present S (run S cmds) id f l e pre c post hsplit hpre hc]
  have hp := S.perm (pre ++ ⟨id, f, l, e⟩ :: post)
  refine ⟨rfl, rfl, rfl, pre, c, post, hsplit, hc, hne, hp, ?_, ?_, S.sorted_keyLe _⟩
  · have hf : (pre ++ (⟨id, f, l, e⟩ : Contact) :: post).filter (fun x => decide (x.ID = id)) =
        [⟨id, f, l, e⟩] := by
      rw [List.filter_append, List.filter_cons]
      have h1 : pre.filter (fun x => decide (x.ID = id)) = [] :=
        List.filter_eq_nil_iff.2 (fun a ha => by
          simpa using hne a (List.mem_append_left _ ha))
      have h2 : post.filter (fun x => decide (x.ID = id)) = [] :=
        List.filter_eq_nil_iff.2 (fun a ha => by
          simpa using hne a (List.mem_append_right _ ha))
      rw [h1, h2]
      simp
    have hpf := hp.filter (fun x => decide (x.ID = id))
    rw [hf] at hpf
    exact hpf.eq_singleton
  · rw [hp.length_eq, hsplit]
    simp only [List.length_append, List.length_cons]

/-- Instance of C7: updating ID 2 in the store holding Alice (2) and Bob (1). -/
theorem C7_update_preserves_identity_witness :
    (∃ c ∈ (run insertionSort [addCmd ("Bob", "Smith", "bob@x.com"),
        addCmd ("Alice", "Jones", "alice@x.com")]).contacts, c.ID = 2) ∧
    (App.UpdateContact insertionSort (App.after insertionSort
        [addCmd ("Bob", "Smith", "bob@x.com"), addCmd ("Alice", "Jones", "alice@x.com")])
        2 "Carol" "Jones" "carol@x.com").1.store.currentID =
      (run insertionSort [addCmd ("Bob", "Smith", "bob@x.com"),
        addCmd ("Alice", "Jones", "alice@x.com")]).currentID :=
  ⟨by decide,
   (C7_update_preserves_identity insertionSort
     [addCmd ("Bob", "Smith", "bob@x.com"), addCmd ("Alice", "Jones", "alice@x.com")]
     2 "Carol" "Jones" "carol@x.com" (by decide)).2.1⟩

/-- C8 (not-found correctness).  After any commands from the empty store, an
`id` that no inserting `AddContact` has assigned (it is at most `0`, or larger
than the number of inserting adds so far) makes `ContactDetails(id)` return
`io.EOF`. -/
theorem C8_not_found (S : SortFunc) (cmds : List appCommand) (id : Int)
    (h : id ≤ 0 ∨ (insertingAdds S Store.init cmds : Int) < id) :
    (App.ContactDetails S (App.after S cmds) id).2.2 = some GoError.EOF := by
  have hi := run_inv S cmds
  have hid : (run S cmds).currentID = (insertingAdds S Store.init cmds : Int) := by
    unfold run
    rw [runFrom_currentID]
    simp [Store.init]
  unfold App.after
  rw [ContactDetails_absent S _ id]
  intro c hc hcid
  have := hi.idRange c hc
  omega

/-- Instance of C8: after two inserting adds (and one duplicate), ID 3 is not found. -/
theorem C8_not_found_witness :
    ((3 : Int) ≤ 0 ∨
      (insertingAdds insertionSort Store.init [addCmd ("Bob", "Smith", "bob@x.com"),
        addCmd ("Bob", "Smith", "bob@x.com"), addCmd ("Alice", "Jones", "alice@x.com")] : Int)
        < 3) ∧
    (App.ContactDetails insertionSort (App.after insertionSort
      [addCmd ("Bob", "Smith", "bob@x.com"), addCmd ("Bob", "Smith", "bob@x.com"),
        addCmd ("Alice", "Jones", "alice@x.com")]) 3).2.2 = some GoError.EOF :=
  ⟨by decide,
   C8_not_found insertionSort [addCmd ("Bob", "Smith", "bob@x.com"),
     addCmd ("Bob", "Smith", "bob@x.com"), addCmd ("Alice", "Jones", "alice@x.com")] 3
     (by decide)⟩

/-- C9 (silent no-op).  In a state reached from the empty store, for an `id`
that no live contact holds, `DeleteContact(id)` and
`UpdateContact(id, f, l, e)` each return a nil error and leave the contact
list and the ID counter exactly as they were. -/
theorem C9_silent_noop (S : SortFunc) (cmds : List appCommand) (id : Int) (f l e : String)
    (h : ∀ c ∈ (run S cmds).contacts, c.ID ≠ id) :
    App.DeleteContact S (App.after S cmds) id = (App.after S cmds, none) ∧
    App.UpdateContact S (App.after S cmds) id f l e = (App.after S cmds, none) := by
  unfold App.after
  rw [DeleteContact_running, UpdateContact_running, uc_absent S _ id f l e h]
  unfold deleteCmd
  rw [exec_delete_absent S (run S cmds) { Contact.zero with ID := id } h]
  exact ⟨rfl, rfl⟩

/-- Instance of C9: ID 7 is held by no contact of the store holding Bob (1). -/
theorem C9_silent_noop_witness :
    (∀ c ∈ (run insertionSort [addCmd ("Bob", "Smith", "bob@x.com")]).contacts, c.ID ≠ 7) ∧
    App.DeleteContact insertionSort
        (App.after insertionSort [addCmd ("Bob", "Smith", "bob@x.com")]) 7 =
      (App.after insertionSort [addCmd ("Bob", "Smith", "bob@x.com")], none) ∧
    App.UpdateContact insertionSort
        (App.after insertionSort [addCmd ("Bob", "Smith", "bob@x.com")]) 7 "A" "B" "C" =
      (App.after insertionSort [addCmd ("Bob", "Smith", "bob@x.com")], none) :=
  ⟨by decide,
   C9_silent_noop insertionSort [addCmd ("Bob", "Smith", "bob@x.com")] 7 "A" "B" "C"
     (by decide)⟩

/-- C10 (no lost or duplicated entries).  For every list `ts` of `AddContact`
calls and every order `ts1` in which the loop may dequeue them (every
permutation of `ts`), running them from the empty store yields a contact list
whose content tuples are pairwise distinct and are exactly the tuples of the
calls, each occurring once; its length is the number of distinct tuples in
`ts`. -/
theorem C10_no_lost_or_duplicated (S : SortFunc) (ts ts1 : List (String × String × String))
    (h : ts1.Perm ts) :
    ((run S (ts1.map addCmd)).contacts.map Contact.key).Nodup ∧
    (∀ t, t ∈ (run S (ts1.map addCmd)).contacts.map Contact.key ↔ t ∈ ts) ∧
    (∀ t ∈ ts,
      ((run S (ts1.map addCmd)).contacts.filter (fun c => decide (c.key = t))).length = 1) ∧
    ((run S (ts1.map addCmd)).contacts.map Contact.key).Perm ts.dedup ∧
    (run S (ts1.map addCmd)).contacts.length = ts.dedup.length := by
  obtain ⟨h0, h2, _⟩ := runFrom_adds S ts1 Store.init Inv_init List.nodup_nil
  have h1 : ((run S (ts1.map addCmd)).contacts.map Contact.key).Nodup := h0
  have hmem : ∀ t, t ∈ (run S (ts1.map addCmd)).contacts.map Contact.key ↔ t ∈ ts := by
    intro t
    unfold run
    rw [h2 t, ← h.mem_iff]
    simp [Store.init]
  have hperm : ((run S (ts1.map addCmd)).contacts.map Contact.key).Perm ts.dedup := by
    rw [List.perm_ext_iff_of_nodup h1 (List.nodup_dedup ts)]
    intro t
    rw [hmem t, List.mem_dedup]
  refine ⟨h1, hmem, ?_, hperm, ?_⟩
  · intro t ht
    exact filter_key_length _ t h1 ((hmem t).2 ht)
  · rw [← hperm.length_eq, List.length_map]

/-- Instance of C10: three calls, two distinct tuples, dequeued in another order. -/
theorem C10_no_lost_or_duplicated_witness :
    ([("Alice", "Jones", "alice@x.com"), ("Bob", "Smith", "bob@x.com"),
        ("Bob", "Smith", "bob@x.com")] : List (String × String × String)).Perm
      [("Bob", "Smith", "bob@x.com"), ("Alice", "Jones", "alice@x.com"),
        ("Bob", "Smith", "bob@x.com")] ∧
    (run insertionSort (([("Alice", "Jones", "alice@x.com"), ("Bob", "Smith", "bob@x.com"),
        ("Bob", "Smith", "bob@x.com")] : List (String × String × String)).map
        addCmd)).contacts.length =
      ([("Bob", "Smith", "bob@x.com"), ("Alice", "Jones", "alice@x.com"),
        ("Bob", "Smith", "bob@x.com")] : List (String × String × String)).dedup.length :=
  ⟨by decide,
   (C10_no_lost_or_duplicated insertionSort
     [("Bob", "Smith", "bob@x.com"), ("Alice", "Jones", "alice@x.com"),
       ("Bob", "Smith", "bob@x.com")]
     [("Alice", "Jones", "alice@x.com"), ("Bob", "Smith", "bob@x.com"),
       ("Bob", "Smith", "bob@x.com")] (by decide)).2.2.2.2⟩

/-- The recovery in the facade methods, taken alone: on an `app` whose
command channel `Stop` has closed, each of `AddContact`, `GetContacts`,
`ContactDetails`, `DeleteContact` and `UpdateContact` returns the recovered
runtime error of the send with the zero value for any result, and leaves the
`app` and the store behind it as `Stop` left them. -/
theorem facade_on_closed_channel (S : SortFunc) (a0 a : App) (id : Int) (f l e : String)
    (h : App.Stop a0 = some a) :
    a.store = a0.store ∧
    App.AddContact S a f l e = (a, some GoError.sendOnClosedChannel) ∧
    App.GetContacts S a = (a, [], some GoError.sendOnClosedChannel) ∧
    App.ContactDetails S a id = (a, Contact.zero, some GoError.sendOnClosedChannel) ∧
    App.DeleteContact S a id = (a, some GoError.sendOnClosedChannel) ∧
    App.UpdateContact S a id f l e = (a, some GoError.sendOnClosedChannel) := by
  unfold App.Stop at h
  split_ifs at h with hc
  have ha : a = { a0 with closed := true } := (Option.some.inj h).symm
  have hcl : a.closed = true := by rw [ha]
  have hsend : ∀ cmd, App.send S a cmd = none := by
    intro cmd
    unfold App.send
    rw [if_pos hcl]
  refine ⟨by rw [ha], ?_, ?_, ?_, ?_, ?_⟩
  · unfold App.AddContact
    rw [hsend]
  · unfold App.GetContacts
    rw [hsend]
  · unfold App.ContactDetails
    rw [hsend]
  · unfold App.DeleteContact
    rw [hsend]
  · unfold App.UpdateContact
    rw [hsend]

/-- C11 (shutdown error), as the code behaves: on the actor that `NewApp`
built, in any state reached from the empty store, `Stop` succeeds and keeps
the store, and a facade call on the closed channel would by itself return the
recovered error; but `Stop` also makes `run` return, whose deferred
`wg.Done()` panics on the zero counter, so that for `Stop` followed by the
loop's exit and then any of `AddContact`, `GetContacts`, `ContactDetails`,
`DeleteContact`, `UpdateContact` the process has ended before the call can
return anything. -/
theorem C11_stop_ends_process (S : SortFunc) (cmds : List appCommand) (id : Int)
    (f l e : String) :
    (∃ a, (Actor.after S cmds).Stop = some a ∧ a.app = ⟨true, run S cmds⟩ ∧
      App.AddContact S a.app f l e = (a.app, some GoError.sendOnClosedChannel) ∧
      a.runReturns = none) ∧
    (Actor.after S cmds).stopThenCall (fun p => App.AddContact S p f l e) = none ∧
    (Actor.after S cmds).stopThenCall (fun p => App.GetContacts S p) = none ∧
    (Actor.after S cmds).stopThenCall (fun p => App.ContactDetails S p id) = none ∧
    (Actor.after S cmds).stopThenCall (fun p => App.DeleteContact S p id) = none ∧
    (Actor.after S cmds).stopThenCall (fun p => App.UpdateContact S p id f l e) = none :=
  ⟨⟨⟨⟨true, run S cmds⟩, ⟨0⟩, false⟩, rfl, rfl, rfl, rfl⟩, rfl, rfl, rfl, rfl, rfl⟩

/-- C12 (Wait), as the code behaves: `NewApp` leaves the WaitGroup counter at
zero, so on the actor it builds `Wait` returns although `run` has not
returned, before `Stop` and after it; and when `run` returns after `Stop`,
its deferred `wg.Done()` finds the counter at zero and panics instead of
signalling completion. -/
theorem C12_wait_returns_while_running :
    NewActor.exited = false ∧ NewActor.Wait = true ∧
    ∃ a, NewActor.Stop = some a ∧ a.exited = false ∧ a.Wait = true ∧
      a.runReturns = none := by
  refine ⟨rfl, rfl, ⟨⟨true, Store.init⟩, ⟨0⟩, false⟩, rfl, rfl, rfl, rfl⟩

/-- C13 (dedup is not re-checked on update).  From the empty store, adding Bob
Smith, adding Alice Jones and then updating contact 2 to Bob Smith's fields
makes `GetContacts` return, without error, a list made of exactly the two
contacts `(1, Bob, Smith, bob@x.com)` and `(2, Bob, Smith, bob@x.com)`: two live
contacts with different IDs and the same content tuple. -/
theorem C13_update_skips_dedup (S : SortFunc) :
    (App.GetContacts S (App.after S
        [addCmd ("Bob", "Smith", "bob@x.com"), addCmd ("Alice", "Jones", "alice@x.com"),
          updateCmd 2 "Bob" "Smith" "bob@x.com"])).2.2 = none ∧
    (App.GetContacts S (App.after S
        [addCmd ("Bob", "Smith", "bob@x.com"), addCmd ("Alice", "Jones", "alice@x.com"),
          updateCmd 2 "Bob" "Smith" "bob@x.com"])).2.1.Perm
      [⟨1, "Bob", "Smith", "bob@x.com"⟩, ⟨2, "Bob", "Smith", "bob@x.com"⟩] ∧
    ∃ c1 c2,
      c1 ∈ (App.GetContacts S (App.after S
        [addCmd ("Bob", "Smith", "bob@x.com"), addCmd ("Alice", "Jones", "alice@x.com"),
          updateCmd 2 "Bob" "Smith" "bob@x.com"])).2.1 ∧
      c2 ∈ (App.GetContacts S (App.after S
        [addCmd ("Bob", "Smith", "bob@x.com"), addCmd ("Alice", "Jones", "alice@x.com"),
          updateCmd 2 "Bob" "Smith" "bob@x.com"])).2.1 ∧
      c1.ID ≠ c2.ID ∧ c1.key = c2.key := by
  have hadds : run S [addCmd ("Bob", "Smith", "bob@x.com"),
      addCmd ("Alice", "Jones", "alice@x.com")] =
      ⟨2, [⟨2, "Alice", "Jones", "alice@x.com"⟩, ⟨1, "Bob", "Smith", "bob@x.com"⟩]⟩ := by
    have h := (runFrom_adds S [("Bob", "Smith", "bob@x.com"), ("Alice", "Jones", "alice@x.com")]
      Store.init Inv_init List.nodup_nil).2.2
    have h2 : run S [addCmd ("Bob", "Smith", "bob@x.com"),
        addCmd ("Alice", "Jones", "alice@x.com")] =
        runFrom insertionSort Store.init
          [addCmd ("Bob", "Smith", "bob@x.com"), addCmd ("Alice", "Jones", "alice@x.com")] := h
    rw [h2]
    decide
  have hrun : run S [addCmd ("Bob", "Smith", "bob@x.com"),
      addCmd ("Alice", "Jones", "alice@x.com"), updateCmd 2 "Bob" "Smith" "bob@x.com"] =
      ⟨2, S.sort [⟨2, "Bob", "Smith", "bob@x.com"⟩, ⟨1, "Bob", "Smith", "bob@x.com"⟩]⟩ := by
    have e : run S [addCmd ("Bob", "Smith", "bob@x.com"),
        addCmd ("Alice", "Jones", "alice@x.com"), updateCmd 2 "Bob" "Smith" "bob@x.com"] =
        uc S (run S [addCmd ("Bob", "Smith", "bob@x.com"),
          addCmd ("Alice", "Jones", "alice@x.com")]) 2 "Bob" "Smith" "bob@x.com" := rfl
    rw [e, hadds]
    exact uc_present S _ 2 "Bob" "Smith" "bob@x.com" []
      ⟨2, "Alice", "Jones", "alice@x.com"⟩ [⟨1, "Bob", "Smith", "bob@x.com"⟩] rfl
      (fun a ha => absurd ha (List.not_mem_nil a)) rfl
  unfold App.after
  rw [GetContacts_running, hrun]
  have hp : (S.sort [⟨2, "Bob", "Smith", "bob@x.com"⟩, ⟨1, "Bob", "Smith", "bob@x.com"⟩]).Perm
      [⟨1, "Bob", "Smith", "bob@x.com"⟩, ⟨2, "Bob", "Smith", "bob@x.com"⟩] :=
    (S.perm _).trans (List.Perm.swap _ _ _)
  refine ⟨rfl, hp, ⟨1, "Bob", "Smith", "bob@x.com"⟩, ⟨2, "Bob", "Smith", "bob@x.com"⟩,
    hp.mem_iff.2 (List.mem_cons_self _ _),
    hp.mem_iff.2 (List.mem_cons_of_mem _ (List.mem_cons_self _ _)), by decide, rfl⟩

end ContactApp
